import Mathlib

/-!
Verification of the raven file-upload service (src/raven/__main__.py).

The Python functions `sanitize_filename`, `prevent_clobber`,
`FileUploadHandler.restrict_access` and the multipart parsing inside
`FileUploadHandler.do_POST` are shallowly embedded below.  Strings are
modelled as Lean `String` / `List Char`, raw request bytes as `List Nat`
(each element below 256), and the filesystem as the list of existing
paths.  Python standard-library helpers used by the code
(`os.path.normpath`, `os.path.join`, `os.path.splitext`, `str.split`,
`str.strip`, `bytes.split`, `ipaddress.ip_address`,
`ipaddress.ip_network`, UTF-8 decoding, `re` searches for the two
patterns appearing in the source) are modelled faithfully after their
CPython semantics for the inputs the claims range over; each model
carries a doc comment naming the function it embeds.  All recursion is
structural (where the Python loop consumes an unbounded amount of input
the recursion carries an explicit fuel argument that provably suffices),
so every definition evaluates by kernel reduction.
-/

set_option maxRecDepth 20000

/-- Models Python `str.split(sep)` / `bytes.split(sep)` for a non-empty
separator, with explicit fuel (one unit per examined position; fuel equal
to the length of the input always suffices, since a match consumes at
least one element).  Scans left to right, cutting at each non-overlapping
occurrence of `sep`. -/
def pysplitFuel [DecidableEq α] (sep : List α) : Nat → List α → List α → List (List α)
  | 0, l, cur => [cur.reverse ++ l]
  | fuel + 1, l, cur =>
    match l with
    | [] => [cur.reverse]
    | x :: xs =>
      if sep ≠ [] ∧ sep.isPrefixOf (x :: xs) then
        cur.reverse :: pysplitFuel sep fuel ((x :: xs).drop sep.length) []
      else
        pysplitFuel sep fuel xs (x :: cur)

/-- Models Python `str.split(sep)` / `bytes.split(sep)` (non-empty `sep`;
the source never splits on an empty separator). -/
def pysplit [DecidableEq α] (l sep : List α) : List (List α) :=
  pysplitFuel sep l.length l []

/-- The ASCII whitespace stripped by Python `str.strip()` (the source
only strips allow-list entries, which are ASCII). -/
def pyIsSpace (c : Char) : Bool :=
  c = ' ' ∨ c = '\t' ∨ c = '\n' ∨ c = '\r' ∨ c = '\x0b' ∨ c = '\x0c'

/-- Models Python `str.strip()`. -/
def pyStrip (l : List Char) : List Char :=
  ((l.dropWhile pyIsSpace).reverse.dropWhile pyIsSpace).reverse

/-- Final step of `posixpath.normpath`: `return path or '.'`. -/
def orDot (l : List Char) : List Char :=
  if l = [] then ['.'] else l

/-- The `initial_slashes` count of `posixpath.normpath`: one leading
slash is preserved, exactly two leading slashes are preserved as two
(POSIX allows `//` a special meaning), three or more collapse to one. -/
def initialSlashesOf (path : List Char) : Nat :=
  if path.take 1 = ['/'] then
    if path.take 2 = ['/', '/'] ∧ ¬ (path.take 3 = ['/', '/', '/']) then 2 else 1
  else 0

/-- One step of the component loop of `posixpath.normpath`: drop empty
and `.` components, append ordinary components, and on `..` either keep
it (at the start of a relative path or after a kept `..`) or pop the
previous component. -/
def normCompsStep (initialSlashes : Nat) (acc : List (List Char)) (comp : List Char) :
    List (List Char) :=
  if comp = [] ∨ comp = ['.'] then acc
  else if ¬ (comp = ['.', '.']) ∨ (initialSlashes = 0 ∧ acc = [])
      ∨ acc.getLast? = some ['.', '.'] then
    acc ++ [comp]
  else acc.dropLast

/-- Models `posixpath.normpath` (the `os.path.normpath` used by the
source on its POSIX target): collapse repeated separators and `.`
components and resolve `..` components lexically, preserving one or two
leading slashes. -/
def normpathChars (path : List Char) : List Char :=
  if path = [] then ['.']
  else
    orDot (List.replicate (initialSlashesOf path) '/' ++
      List.intercalate ['/']
        ((pysplit path ['/']).foldl (normCompsStep (initialSlashesOf path)) []))

/-- Models `os.path.normpath` on Lean strings. -/
def normpath (p : String) : String :=
  String.mk (normpathChars p.data)

/-- A character kept by the regex class `[\w.-]` of the source's
`re.sub(r'[^\w.-]', '_', ...)`.  Python `\w` has Unicode semantics; it is
modelled here on the ASCII range (letters, digits, underscore), which is
the range the claims quantify over: a character outside the class is
replaced by an underscore, one inside is kept, and no claim depends on
which non-ASCII characters the class contains (every kept character is
equally a non-separator). -/
def isWordChar (c : Char) : Bool :=
  c.isAlphanum ∨ c = '_'

/-- Membership in the regex class `[\w.-]`. -/
def keepChar (c : Char) : Bool :=
  isWordChar c ∨ c = '.' ∨ c = '-'

/-- Models `re.sub(r'[^\w.-]', '_', s)`: the pattern is a single
character class, so substitution is a character-wise map. -/
def pySubUnderscore (l : List Char) : List Char :=
  l.map (fun c => if keepChar c then c else '_')

/-- Models `sanitize_filename` from src/raven/__main__.py:
`os.path.normpath` followed by `re.sub(r'[^\w.-]', '_', ...)`. -/
def sanitize_filename (filename : String) : String :=
  String.mk (pySubUnderscore (normpathChars filename.data))

/-- The safety property claimed for sanitized names: no path separator
and no `..` traversal segment.  A `..` segment of a name is a maximal
`/`-free component equal to `..`; when the name contains no `/` at all,
its only component is the whole name, so the second conjunct reduces to
the name itself not being `..`. -/
def isTraversalFree (s : String) : Bool :=
  decide ('/' ∉ s.data) && decide (s.data ≠ ['.', '.'])

-- ### Helper lemmas about the sanitizer

theorem keepChar_of_mem_pySubUnderscore {c : Char} {l : List Char}
    (h : c ∈ pySubUnderscore l) : keepChar c = true := by
  simp only [pySubUnderscore, List.mem_map] at h
  obtain ⟨a, _, ha⟩ := h
  by_cases hk : keepChar a = true
  · rw [if_pos hk] at ha
    rw [← ha]
    exact hk
  · rw [if_neg hk] at ha
    rw [← ha]
    decide

theorem slash_not_mem_pySubUnderscore (l : List Char) :
    '/' ∉ pySubUnderscore l := by
  intro h
  have := keepChar_of_mem_pySubUnderscore h
  simp [keepChar, isWordChar] at this

theorem pySubUnderscore_eq_dotdot {l : List Char}
    (h : pySubUnderscore l = ['.', '.']) : l = ['.', '.'] := by
  have hlen : l.length = 2 := by
    have := congrArg List.length h
    simpa [pySubUnderscore] using this
  obtain ⟨a, b, rfl⟩ := List.length_eq_two.mp hlen
  simp only [pySubUnderscore, List.map_cons, List.map_nil, List.cons.injEq, and_true] at h
  obtain ⟨ha, hb⟩ := h
  have ha' : a = '.' := by
    by_cases hk : keepChar a = true
    · simpa [hk] using ha
    · simp [hk] at ha
  have hb' : b = '.' := by
    by_cases hk : keepChar b = true
    · simpa [hk] using hb
    · simp [hk] at hb
  rw [ha', hb']

theorem orDot_ne_nil (l : List Char) : orDot l ≠ [] := by
  unfold orDot
  split <;> simp_all

theorem normpathChars_ne_nil (l : List Char) : normpathChars l ≠ [] := by
  unfold normpathChars
  split
  · simp
  · exact orDot_ne_nil _

theorem pysplitFuel_single {c : Char} :
    ∀ (fuel : Nat) (l cur : List Char), c ∉ l →
      pysplitFuel [c] fuel l cur = [cur.reverse ++ l] := by
  intro fuel
  induction fuel with
  | zero => intro l cur _; rfl
  | succ n ih =>
    intro l cur hl
    match l with
    | [] => simp [pysplitFuel]
    | x :: xs =>
      have hx : ¬ (c = x) := fun h => hl (h ▸ List.mem_cons_self x xs)
      have hpre : List.isPrefixOf [c] (x :: xs) = false := by
        simp [List.isPrefixOf, hx]
      simp only [pysplitFuel, hpre, and_false, ne_eq, if_neg, not_false_eq_true,
        and_true]
      rw [if_neg (by simp [hpre])]
      rw [ih xs (x :: cur) (fun h => hl (List.mem_cons_of_mem x h))]
      simp

theorem pysplit_single {c : Char} {l : List Char} (h : c ∉ l) :
    pysplit l [c] = [l] := by
  unfold pysplit
  rw [pysplitFuel_single l.length l [] h]
  simp

theorem intercalate_singleton (sep : List Char) (x : List Char) :
    List.intercalate sep [x] = x := by
  simp [List.intercalate, List.intersperse]

theorem initialSlashesOf_no_slash {l : List Char} (hs : '/' ∉ l) :
    initialSlashesOf l = 0 := by
  unfold initialSlashesOf
  have htake : l.take 1 ≠ ['/'] := by
    intro h
    match l with
    | [] => simp at h
    | x :: xs =>
      simp [List.take] at h
      exact hs (h ▸ List.mem_cons_self x xs)
  rw [if_neg htake]

theorem normpathChars_no_slash {l : List Char} (hs : '/' ∉ l) (hne : l ≠ []) :
    normpathChars l = l := by
  unfold normpathChars
  rw [if_neg hne, pysplit_single hs, initialSlashesOf_no_slash hs]
  simp only [List.foldl_cons, List.foldl_nil, List.replicate, List.nil_append]
  by_cases hdot : l = ['.']
  · subst hdot
    simp [normCompsStep, orDot, List.intercalate]
  · have hne' : ¬ (l = [] ∨ l = ['.']) := by
      intro h
      rcases h with h | h
      · exact hne h
      · exact hdot h
    unfold normCompsStep
    rw [if_neg hne', if_pos (Or.inr (Or.inl ⟨rfl, rfl⟩))]
    simp only [List.nil_append]
    rw [intercalate_singleton]
    simp [orDot, hne]

theorem map_keepChar_fixed {l : List Char} (h : ∀ c ∈ l, keepChar c = true) :
    pySubUnderscore l = l := by
  unfold pySubUnderscore
  induction l with
  | nil => rfl
  | cons x xs ih =>
    simp only [List.map_cons]
    rw [if_pos (h x (List.mem_cons_self x xs)), ih (fun c hc => h c (List.mem_cons_of_mem x hc))]

-- ### Claim theorems about the sanitizer

/-- C1, counterexample: the claim that sanitize maps every filename
containing a traversal sequence to a name with no traversal segment is
false: the input "../" sanitizes to "..", which is itself a traversal
segment (joining it onto a base directory names the parent directory). -/
theorem sanitize_C1_counterexample :
    sanitize_filename "../" = ".." ∧ isTraversalFree (sanitize_filename "../") = false := by
  constructor <;> decide

/-- C1, amended: the sanitized name never contains a path separator, and
it contains a traversal segment only when the normalized input is exactly
".." (as for the inputs ".." and "../"), in which case the output is "..";
for every input whose normalization is not "..", the output contains no
"/" and no ".." segment. -/
theorem sanitize_C1_amended (s : String) :
    '/' ∉ (sanitize_filename s).data ∧
      (normpath s ≠ ".." → isTraversalFree (sanitize_filename s) = true) := by
  refine ⟨slash_not_mem_pySubUnderscore _, fun h => ?_⟩
  unfold isTraversalFree
  rw [Bool.and_eq_true, decide_eq_true_iff, decide_eq_true_iff]
  refine ⟨slash_not_mem_pySubUnderscore _, fun hdd => h ?_⟩
  have : normpathChars s.data = ['.', '.'] := pySubUnderscore_eq_dotdot hdd
  show String.mk (normpathChars s.data) = ".."
  rw [this]

/-- Witness for the amended C1 at the concrete input "a/../b". -/
theorem sanitize_C1_amended_witness :
    '/' ∉ (sanitize_filename "a/../b").data ∧
      isTraversalFree (sanitize_filename "a/../b") = true :=
  ⟨(sanitize_C1_amended "a/../b").1, (sanitize_C1_amended "a/../b").2 (by decide)⟩

/-- C8: sanitize is idempotent: sanitizing an already-sanitized name
changes nothing, because the output contains no separator (so it
normalizes to itself) and every character of the output is already in
the kept class. -/
theorem sanitize_filename_idempotent (x : String) :
    sanitize_filename (sanitize_filename x) = sanitize_filename x := by
  show String.mk (pySubUnderscore (normpathChars (pySubUnderscore (normpathChars x.data)))) = _
  have hs := slash_not_mem_pySubUnderscore (normpathChars x.data)
  have hne : pySubUnderscore (normpathChars x.data) ≠ [] := by
    intro h
    have hlen := congrArg List.length h
    simp only [pySubUnderscore, List.length_map, List.length_nil] at hlen
    exact normpathChars_ne_nil x.data (List.length_eq_zero.mp hlen)
  rw [normpathChars_no_slash hs hne,
    map_keepChar_fixed (fun c hc => keepChar_of_mem_pySubUnderscore hc)]
  rfl

/-- C9: sanitize is pure and total: it is a total function on strings,
and every character of the (always defined) output lies in the kept
class letters, digits, underscore, period, hyphen. -/
theorem sanitize_filename_total (s : String) :
    ∃ t : String, sanitize_filename s = t ∧ ∀ c ∈ t.data, keepChar c = true :=
  ⟨sanitize_filename s, rfl, fun _ hc => keepChar_of_mem_pySubUnderscore hc⟩

/-- C10: sanitize never returns the empty string: every output has
length at least one, and the empty input normalizes to ".". -/
theorem sanitize_filename_ne_empty :
    (∀ s : String, 1 ≤ (sanitize_filename s).length) ∧ sanitize_filename "" = "." := by
  constructor
  · intro s
    show 1 ≤ (String.mk (pySubUnderscore (normpathChars s.data))).length
    have hlen : (String.mk (pySubUnderscore (normpathChars s.data))).length
        = (normpathChars s.data).length := by
      simp [String.length, pySubUnderscore]
    rw [hlen]
    exact Nat.one_le_iff_ne_zero.mpr
      (fun h => normpathChars_ne_nil s.data (List.length_eq_zero.mp h))
  · decide

-- ### Collision resolver (prevent_clobber)

/-- Models `posixpath.join(a, b)` (the `os.path.join` used by the source)
for a single extra component: an absolute `b` replaces `a`; otherwise `b`
is appended, inserting a slash unless `a` is empty or already ends in
one. -/
def pyJoin (a b : String) : String :=
  if b.data.take 1 = ['/'] then b
  else if a = "" ∨ a.data.getLast? = some '/' then a ++ b
  else a ++ "/" ++ b

/-- Index of the last occurrence of `c` in `l`, if any. -/
def rfindIdx (l : List Char) (c : Char) : Option Nat :=
  match l.reverse.findIdx? (· = c) with
  | none => none
  | some k => some (l.length - 1 - k)

/-- Models `posixpath.splitext`: split at the last dot, provided it comes
after the last slash and the basename up to it is not made of dots only
(so leading dots of a hidden file do not start an extension). -/
def splitextChars (p : List Char) : List Char × List Char :=
  let sepIndex : Int := match rfindIdx p '/' with | some k => (k : Int) | none => -1
  let dotIndex : Int := match rfindIdx p '.' with | some k => (k : Int) | none => -1
  if sepIndex < dotIndex then
    if ((p.drop (sepIndex + 1).toNat).take (dotIndex.toNat - (sepIndex + 1).toNat)).any
        (fun c => ¬ (c = '.')) then
      (p.take dotIndex.toNat, p.drop dotIndex.toNat)
    else (p, [])
  else (p, [])

/-- Models `os.path.splitext` on Lean strings. -/
def splitext (p : String) : String × String :=
  (String.mk (splitextChars p.data).1, String.mk (splitextChars p.data).2)

/-- Decimal digits of `n`, most significant first, with explicit fuel
(`n + 1` units always suffice). -/
def natDigitsFuel : Nat → Nat → List Char → List Char
  | 0, _, acc => acc
  | fuel + 1, n, acc =>
    if n < 10 then Nat.digitChar n :: acc
    else natDigitsFuel fuel (n / 10) (Nat.digitChar (n % 10) :: acc)

/-- Decimal rendering of a counter, as produced by the f-string
interpolation in the source. -/
def natRepr (n : Nat) : String :=
  String.mk (natDigitsFuel (n + 1) n [])

/-- Models the f-string of `prevent_clobber`:
`base_name, file_extension = os.path.splitext(filename)` followed by
`f"{base_name}_{counter}{file_extension}"`. -/
def newFilename (filename : String) (counter : Nat) : String :=
  (splitext filename).1 ++ "_" ++ natRepr counter ++ (splitext filename).2

/-- The candidate path examined by `prevent_clobber` at a given counter
value: `os.path.join(upload_folder, new_filename)`. -/
def clobberCand (folder filename : String) (counter : Nat) : String :=
  pyJoin folder (newFilename filename counter)

/-- The `while os.path.exists(file_path)` loop of `prevent_clobber`: the
filesystem is the list `fs` of existing paths, and the fuel argument
bounds the number of iterations (`fs.length + 2` provably suffices,
since candidate names for distinct counters are distinct). -/
def clobberLoop (fs : List String) (folder filename : String) :
    Nat → Nat → String → String
  | 0, _, path => path
  | fuel + 1, counter, path =>
    if path ∈ fs then
      clobberLoop fs folder filename fuel (counter + 1) (clobberCand folder filename counter)
    else path

/-- Models `prevent_clobber` from src/raven/__main__.py against the
directory state `fs` (the list of existing paths). -/
def prevent_clobber (fs : List String) (upload_folder filename : String) : String :=
  clobberLoop fs upload_folder filename (fs.length + 2) 1 (pyJoin upload_folder filename)

-- ### Helper lemmas about strings and decimal rendering

theorem strData_append (s t : String) : (s ++ t).data = s.data ++ t.data := by
  cases s
  cases t
  rfl

theorem strExt {s t : String} (h : s.data = t.data) : s = t := by
  cases s
  cases t
  exact congrArg String.mk h

/-- Value of a digit list, inverse of the decimal rendering. -/
def digitsVal (l : List Char) : Nat :=
  l.foldl (fun a c => a * 10 + (c.toNat - 48)) 0

theorem natDigitsFuel_append :
    ∀ (fuel n : Nat) (acc : List Char),
      natDigitsFuel fuel n acc = natDigitsFuel fuel n [] ++ acc := by
  intro fuel
  induction fuel with
  | zero => intro n acc; rfl
  | succ f ih =>
    intro n acc
    by_cases h : n < 10
    · simp [natDigitsFuel, h]
    · simp only [natDigitsFuel, h, if_false]
      rw [ih (n / 10) (Nat.digitChar (n % 10) :: acc), ih (n / 10) [Nat.digitChar (n % 10)]]
      simp

theorem digitsVal_append_last (xs : List Char) (c : Char) :
    digitsVal (xs ++ [c]) = digitsVal xs * 10 + (c.toNat - 48) := by
  simp [digitsVal, List.foldl_append]

theorem digitChar_val : ∀ n : Nat, n < 10 → (Nat.digitChar n).toNat - 48 = n := by
  decide

theorem digitsVal_natDigitsFuel :
    ∀ (fuel n : Nat), n < 10 ^ fuel → digitsVal (natDigitsFuel fuel n []) = n := by
  intro fuel
  induction fuel with
  | zero =>
    intro n hn
    interval_cases n
    rfl
  | succ f ih =>
    intro n hn
    by_cases h : n < 10
    · simp [natDigitsFuel, h, digitsVal, digitChar_val n h]
    · simp only [natDigitsFuel, h, if_false]
      rw [natDigitsFuel_append]
      rw [digitsVal_append_last]
      have hdiv : n / 10 < 10 ^ f := by
        rw [Nat.div_lt_iff_lt_mul (by norm_num)]
        calc n < 10 ^ (f + 1) := hn
        _ = 10 ^ f * 10 := by ring
      rw [ih (n / 10) hdiv, digitChar_val (n % 10) (Nat.mod_lt n (by norm_num))]
      omega

theorem natRepr_injective {n m : Nat} (h : natRepr n = natRepr m) : n = m := by
  have hd : natDigitsFuel (n + 1) n [] = natDigitsFuel (m + 1) m [] := congrArg String.data h
  have hn : n < 10 ^ (n + 1) :=
    lt_of_lt_of_le n.lt_two_pow
      (le_trans (Nat.pow_le_pow_left (by norm_num) n) (Nat.pow_le_pow_right (by norm_num) (Nat.le_succ n)))
  have hm : m < 10 ^ (m + 1) :=
    lt_of_lt_of_le m.lt_two_pow
      (le_trans (Nat.pow_le_pow_left (by norm_num) m) (Nat.pow_le_pow_right (by norm_num) (Nat.le_succ m)))
  have := congrArg digitsVal hd
  rwa [digitsVal_natDigitsFuel (n + 1) n hn, digitsVal_natDigitsFuel (m + 1) m hm] at this

theorem strAppend_cancel_left {a x y : String} (h : a ++ x = a ++ y) : x = y := by
  apply strExt
  have hd := congrArg String.data h
  rw [strData_append, strData_append] at hd
  exact List.append_cancel_left hd

theorem newFilename_data (filename : String) (i : Nat) :
    (newFilename filename i).data
      = (splitext filename).1.data
          ++ '_' :: ((natRepr i).data ++ (splitext filename).2.data) := by
  unfold newFilename
  rw [strData_append, strData_append, strData_append]
  rw [show ("_" : String).data = ['_'] from rfl]
  simp [List.append_assoc]

theorem take_one_append_cons (B t t' : List Char) :
    (B ++ '_' :: t).take 1 = (B ++ '_' :: t').take 1 := by
  cases B <;> simp

theorem clobberCand_injective (folder filename : String) {i j : Nat}
    (h : clobberCand folder filename i = clobberCand folder filename j) : i = j := by
  have hnf : newFilename filename i = newFilename filename j → i = j := by
    intro he
    have hd := congrArg String.data he
    rw [newFilename_data, newFilename_data] at hd
    have h1 := List.append_cancel_left hd
    injection h1 with _ h2
    have h3 := List.append_cancel_right h2
    exact natRepr_injective (strExt h3)
  unfold clobberCand pyJoin at h
  have htk : (newFilename filename i).data.take 1 = (newFilename filename j).data.take 1 := by
    rw [newFilename_data, newFilename_data]
    exact take_one_append_cons _ _ _
  by_cases hb : (newFilename filename j).data.take 1 = ['/']
  · rw [if_pos (htk.trans hb), if_pos hb] at h
    exact hnf h
  · rw [if_neg (fun hx => hb (htk.symm.trans hx)), if_neg hb] at h
    by_cases ha : folder = "" ∨ folder.data.getLast? = some '/'
    · rw [if_pos ha, if_pos ha] at h
      exact hnf (strAppend_cancel_left h)
    · rw [if_neg ha, if_neg ha] at h
      exact hnf (strAppend_cancel_left h)

theorem clobberLoop_of_notin (fs : List String) (folder filename : String) :
    ∀ (fuel counter : Nat) (path : String), path ∉ fs →
      clobberLoop fs folder filename fuel counter path = path := by
  intro fuel counter path h
  cases fuel with
  | zero => rfl
  | succ f => simp [clobberLoop, h]

theorem clobberLoop_chain (fs : List String) (folder filename : String) (M : Nat)
    (hM : clobberCand folder filename M ∉ fs) :
    ∀ (fuel counter : Nat) (path : String), path ∈ fs → counter ≤ M →
      (∀ j, counter ≤ j → j < M → clobberCand folder filename j ∈ fs) →
      M - counter < fuel →
      clobberLoop fs folder filename fuel counter path = clobberCand folder filename M := by
  intro fuel
  induction fuel with
  | zero => intro counter path _ _ _ h; omega
  | succ f ih =>
    intro counter path hpath hcm hall hfuel
    show (if path ∈ fs then
        clobberLoop fs folder filename f (counter + 1) (clobberCand folder filename counter)
      else path) = _
    rw [if_pos hpath]
    by_cases hc : counter = M
    · subst hc
      exact clobberLoop_of_notin fs folder filename f (counter + 1) _ hM
    · have hlt : counter < M := lt_of_le_of_ne hcm hc
      exact ih (counter + 1) (clobberCand folder filename counter)
        (hall counter le_rfl hlt) hlt
        (fun j hj1 hj2 => hall j (by omega) hj2) (by omega)

theorem length_le_of_distinct_mem (fs : List String) (f : Nat → String)
    (hinj : ∀ a b, f a = f b → a = b) (m : Nat)
    (hmem : ∀ k, k < m → f k ∈ fs) : m ≤ fs.length := by
  have hnodup : ((List.range m).map f).Nodup :=
    List.Nodup.map (fun a b hab => hinj a b hab) (List.nodup_range m)
  have h1 : ((List.range m).map f).toFinset.card = m := by
    rw [List.toFinset_card_of_nodup hnodup]
    simp
  have h2 : ((List.range m).map f).toFinset ⊆ fs.toFinset := by
    intro x hx
    rw [List.mem_toFinset] at hx ⊢
    simp only [List.mem_map, List.mem_range] at hx
    obtain ⟨k, hk, rfl⟩ := hx
    exact hmem k hk
  have h3 := Finset.card_le_card h2
  have h4 := fs.toFinset_card_le
  omega

theorem exists_free_cand (fs : List String) (folder filename : String) :
    ∃ M, 1 ≤ M ∧ M ≤ fs.length + 1 ∧ clobberCand folder filename M ∉ fs := by
  by_contra hcon
  push_neg at hcon
  have hbound := length_le_of_distinct_mem fs
    (fun k => clobberCand folder filename (k + 1))
    (fun a b hab => by
      have := clobberCand_injective folder filename hab
      omega)
    (fs.length + 1)
    (fun k hk => hcon (k + 1) (by omega) (by omega))
  omega

-- ### Claim theorem for the collision resolver

/-- C5: prevent_clobber never returns a path that exists in the given
directory state, and when dir/a.txt together with dir/a_1.txt ...
dir/a_(N-1).txt exist while dir/a_N.txt does not, resolving a.txt yields
dir/a_N.txt (the incrementing numeric suffix is inserted before the
extension). -/
theorem prevent_clobber_correct (fs : List String) (folder : String) :
    (∀ name, prevent_clobber fs folder name ∉ fs) ∧
    (∀ N : Nat, 1 ≤ N →
      pyJoin folder "a.txt" ∈ fs →
      (∀ i, 1 ≤ i → i < N → pyJoin folder ("a_" ++ natRepr i ++ ".txt") ∈ fs) →
      pyJoin folder ("a_" ++ natRepr N ++ ".txt") ∉ fs →
      prevent_clobber fs folder "a.txt" = pyJoin folder ("a_" ++ natRepr N ++ ".txt")) := by
  have hbridge : ∀ i, clobberCand folder "a.txt" i
      = pyJoin folder ("a_" ++ natRepr i ++ ".txt") := by
    intro i
    unfold clobberCand
    congr 1
  constructor
  · intro name
    unfold prevent_clobber
    by_cases h0 : pyJoin folder name ∈ fs
    · obtain ⟨M', hM'1, hM'2, hM'3⟩ := exists_free_cand fs folder name
      have hex : ∃ M, 1 ≤ M ∧ clobberCand folder name M ∉ fs := ⟨M', hM'1, hM'3⟩
      have hP := Nat.find_spec hex
      have hub : Nat.find hex ≤ M' := Nat.find_min' hex ⟨hM'1, hM'3⟩
      rw [clobberLoop_chain fs folder name (Nat.find hex) hP.2 (fs.length + 2) 1 _ h0 hP.1
        (fun j hj1 hj2 => by
          by_contra hnot
          exact Nat.find_min hex hj2 ⟨hj1, hnot⟩)
        (by omega)]
      exact hP.2
    · rw [clobberLoop_of_notin fs folder name _ _ _ h0]
      exact h0
  · intro N hN h0 hall hNfree
    have hNfree' : clobberCand folder "a.txt" N ∉ fs := by
      rw [hbridge N]
      exact hNfree
    have hbound : N - 1 ≤ fs.length :=
      length_le_of_distinct_mem fs (fun k => clobberCand folder "a.txt" (k + 1))
        (fun a b hab => by
          have := clobberCand_injective folder "a.txt" hab
          omega)
        (N - 1)
        (fun k hk => by
          show clobberCand folder "a.txt" (k + 1) ∈ fs
          rw [hbridge (k + 1)]
          exact hall (k + 1) (by omega) (by omega))
    unfold prevent_clobber
    rw [← hbridge N]
    exact clobberLoop_chain fs folder "a.txt" N hNfree' (fs.length + 2) 1 _ h0 hN
      (fun j hj1 hj2 => by
        rw [hbridge j]
        exact hall j hj1 hj2)
      (by omega)

/-- Witness for C5 at a concrete directory state: with up/a.txt and
up/a_1.txt present, resolving a.txt in up yields up/a_2.txt. -/
theorem prevent_clobber_correct_witness :
    prevent_clobber ["up/a.txt", "up/a_1.txt"] "up" "a.txt"
      = pyJoin "up" ("a_" ++ natRepr 2 ++ ".txt") :=
  (prevent_clobber_correct ["up/a.txt", "up/a_1.txt"] "up").2 2 (by decide) (by decide)
    (fun i h1 h2 => by
      have hi : i = 1 := by omega
      subst hi
      decide)
    (by decide)

-- ### Address matcher (restrict_access)

/-- A parsed IP address as produced by `ipaddress.ip_address`: an IPv4
address (value below 2^32) or an IPv6 address (value below 2^128; the
optional zone of a scoped literal is accepted and discarded, which no
claim depends on). -/
inductive IPAddr
  | v4 (n : Nat)
  | v6 (n : Nat)
deriving DecidableEq

/-- A parsed network as produced by `ipaddress.ip_network(..., strict=False)`:
the already-masked network address and the prefix length. -/
inductive IPNet
  | v4 (addr plen : Nat)
  | v6 (addr plen : Nat)
deriving DecidableEq

/-- Decimal value of a digit string. -/
def decimalVal (l : List Char) : Nat :=
  l.foldl (fun a c => a * 10 + (c.toNat - 48)) 0

/-- Models `ipaddress._parse_octet`: a non-empty all-ASCII-digit string
of at most three characters, without leading zeros, valued at most
255. -/
def parseOctet (s : List Char) : Option Nat :=
  if s = [] then none
  else if ¬ s.all (fun c => c.isDigit) then none
  else if s.length > 3 then none
  else if s ≠ ['0'] ∧ s.take 1 = ['0'] then none
  else if decimalVal s > 255 then none
  else some (decimalVal s)

/-- Models `IPv4Address._ip_int_from_string`: exactly four octets joined
by dots, big-endian. -/
def ipv4Parse (s : List Char) : Option Nat :=
  let octs := pysplit s ['.']
  if octs.length = 4 then
    match octs.mapM parseOctet with
    | some vals => some (vals.foldl (fun a o => a * 256 + o) 0)
    | none => none
  else none

/-- Hexadecimal digit test, as in `ipaddress._BaseV6._HEX_DIGITS`. -/
def isHexDigitChar (c : Char) : Bool :=
  c.isDigit ∨ ('a' ≤ c ∧ c ≤ 'f') ∨ ('A' ≤ c ∧ c ≤ 'F')

/-- Value of one hexadecimal digit character. -/
def hexDigitVal (c : Char) : Nat :=
  if c.isDigit then c.toNat - 48
  else if 'a' ≤ c ∧ c ≤ 'f' then c.toNat - 87
  else c.toNat - 55

/-- Value of a hexadecimal digit string. -/
def hexVal (l : List Char) : Nat :=
  l.foldl (fun a c => a * 16 + hexDigitVal c) 0

/-- Models `IPv6Address._parse_hextet`: one to four hex digits. -/
def parseHextet (s : List Char) : Option Nat :=
  if ¬ s.all isHexDigitChar then none
  else if s.length > 4 then none
  else if s = [] then none
  else some (hexVal s)

/-- Big-endian accumulation of parsed hextets. -/
def foldHextets (l : List (List Char)) : Option Nat :=
  match l.mapM parseHextet with
  | some vals => some (vals.foldl (fun a h => a * 65536 + h) 0)
  | none => none

/-- Lowercase hex rendering (the `'%x'` formatting used when an embedded
IPv4 tail is rewritten into two hextets). -/
def hexChars (n : Nat) : List Char :=
  Nat.toDigits 16 n

/-- Core of `IPv6Address._ip_int_from_string` after the embedded-IPv4
rewriting: at most nine parts, at most one empty part strictly inside
(the `::` compression), an empty first or last part only directly next
to the compression, exactly eight hextets in total otherwise, and at
least one hextet actually skipped by a compression. -/
def ipv6FromParts (parts : List (List Char)) : Option Nat :=
  let n := parts.length
  if n > 9 then none
  else
    match (List.range n).filter
        (fun i => decide (1 ≤ i) && decide (i < n - 1) && decide (parts.getD i [' '] = [])) with
    | [] =>
      if n ≠ 8 then none
      else if parts.headD [' '] = [] then none
      else if parts.getLastD [' '] = [] then none
      else foldHextets parts
    | [i] =>
      if parts.headD [' '] = [] ∧ i - 1 ≠ 0 then none
      else if parts.getLastD [' '] = [] ∧ n - i - 2 ≠ 0 then none
      else
        let partsHi := if parts.headD [' '] = [] then i - 1 else i
        let partsLo := if parts.getLastD [' '] = [] then n - i - 2 else n - i - 1
        if 8 ≤ partsHi + partsLo then none
        else
          match foldHextets (parts.take partsHi),
              foldHextets (parts.drop (n - partsLo)) with
          | some hi, some lo => some (hi * 65536 ^ ((8 - partsHi - partsLo) + partsLo) + lo)
          | _, _ => none
    | _ => none

/-- Models `IPv6Address._ip_int_from_string`: split on colons (at least
three parts), rewrite an embedded dotted-quad tail into two hextets,
then assemble via `ipv6FromParts`. -/
def ipv6Parse (s : List Char) : Option Nat :=
  let parts := pysplit s [':']
  if parts.length < 3 then none
  else if (parts.getLastD []).contains '.' then
    match ipv4Parse (parts.getLastD []) with
    | some v4 =>
      ipv6FromParts (parts.dropLast
        ++ [hexChars ((v4 >>> 16) &&& 65535), hexChars (v4 &&& 65535)])
    | none => none
  else ipv6FromParts parts

/-- Models the scope handling of `IPv6Address.__init__`: an optional
`%zone` suffix whose zone must be non-empty and must not itself contain
`%`; the numeric value ignores the zone. -/
def ipv6WithScope (s : List Char) : Option Nat :=
  match s.findIdx? (· = '%') with
  | none => ipv6Parse s
  | some i =>
    if s.drop (i + 1) = [] ∨ (s.drop (i + 1)).contains '%' then none
    else ipv6Parse (s.take i)

/-- Models `ipaddress.ip_address`: try IPv4, then IPv6, else the
ValueError signalled by returning `none`. -/
def ip_address_parse (s : List Char) : Option IPAddr :=
  match ipv4Parse s with
  | some n => some (IPAddr.v4 n)
  | none =>
    match ipv6WithScope s with
    | some n => some (IPAddr.v6 n)
    | none => none

/-- The netmask integer of a prefix length within a family of bit width
`w`. -/
def maskBits (w p : Nat) : Nat :=
  (2 ^ p - 1) * 2 ^ (w - p)

/-- Models `_prefix_from_ip_int` with the hostmask fallback of
`_make_netmask`: a netmask integer yields its prefix length, otherwise a
hostmask integer yields the prefix length of its complement. -/
def netmaskToPlen (w n : Nat) : Option Nat :=
  match (List.range (w + 1)).find? (fun p => n == maskBits w p) with
  | some p => some p
  | none => (List.range (w + 1)).find? (fun p => n == 2 ^ (w - p) - 1)

/-- Models `_make_netmask` for bit width `w`: a pure ASCII-digit string
is a prefix length (at most `w`); anything else is parsed by the
family's address parser as a dotted netmask or hostmask. -/
def makeNetmaskPlen (w : Nat) (parseAddr : List Char → Option Nat) (m : List Char) :
    Option Nat :=
  if m ≠ [] ∧ m.all (fun c => c.isDigit) then
    if decimalVal m ≤ w then some (decimalVal m) else none
  else
    match parseAddr m with
    | some n => netmaskToPlen w n
    | none => none

/-- Models `IPv4Network(s, strict=False)`: split on the single allowed
slash, parse address and netmask, and mask the host bits. -/
def ipv4NetParse (s : List Char) : Option IPNet :=
  let addr := pysplit s ['/']
  if addr.length > 2 then none
  else
    match ipv4Parse (addr.headD []) with
    | none => none
    | some a =>
      match makeNetmaskPlen 32 ipv4Parse
          (if addr.length = 2 then addr.getLastD [] else ['3', '2']) with
      | none => none
      | some p => some (IPNet.v4 (a &&& maskBits 32 p) p)

/-- Models `IPv6Network(s, strict=False)` (network literals carry no
zone). -/
def ipv6NetParse (s : List Char) : Option IPNet :=
  let addr := pysplit s ['/']
  if addr.length > 2 then none
  else
    match ipv6Parse (addr.headD []) with
    | none => none
    | some a =>
      match makeNetmaskPlen 128 ipv6Parse
          (if addr.length = 2 then addr.getLastD [] else ['1', '2', '8']) with
      | none => none
      | some p => some (IPNet.v6 (a &&& maskBits 128 p) p)

/-- Models `ipaddress.ip_network(s, strict=False)`: try IPv4, then
IPv6. -/
def ip_network_parse (s : List Char) : Option IPNet :=
  match ipv4NetParse s with
  | some net => some net
  | none => ipv6NetParse s

/-- Models `client_ip in network`: false across address families,
otherwise masked-bits equality against the (already masked) network
address. -/
def netContains (net : IPNet) (a : IPAddr) : Bool :=
  match net, a with
  | IPNet.v4 na p, IPAddr.v4 x => (x &&& maskBits 32 p) == na
  | IPNet.v6 na p, IPAddr.v6 x => (x &&& maskBits 128 p) == na
  | _, _ => false

/-- Whether one (stripped, raw) allow-list entry matches the client:
the pure outcome of one iteration of the `for ip in allowed_ips` loop on
an entry that does not raise. -/
def matchesEntry (client : IPAddr) (e : List Char) : Bool :=
  if '/' ∈ pyStrip e then
    match ip_network_parse (pyStrip e) with
    | some net => netContains net client
    | none => false
  else
    match ip_address_parse (pyStrip e) with
    | some a => decide (client = a)
    | none => false

/-- The `for ip in allowed_ips` loop of `restrict_access`: strip each
entry; an entry containing a slash is tried as a network with a
ValueError silently skipped (`try ... except ValueError: pass`); an
entry without a slash is compared via `ip_address(ip)`, whose
ValueError is NOT caught and aborts the whole check (modelled by
`Except.error`); the first match returns true, exhaustion returns
false. -/
def checkEntries (client : IPAddr) : List (List Char) → Except String Bool
  | [] => Except.ok false
  | e :: rest =>
    if '/' ∈ pyStrip e then
      match ip_network_parse (pyStrip e) with
      | some net =>
        if netContains net client then Except.ok true else checkEntries client rest
      | none => checkEntries client rest
    else
      match ip_address_parse (pyStrip e) with
      | some a =>
        if client = a then Except.ok true else checkEntries client rest
      | none => Except.error "ValueError: not an IPv4 or IPv6 address"

/-- Models `FileUploadHandler.restrict_access` from
src/raven/__main__.py: a missing or empty `allowed_ip` configuration
allows every client; otherwise the client address string is parsed and
the comma-separated entries are scanned; `Except.ok` carries the
returned Boolean (false corresponds to the 403 response) and
`Except.error` an uncaught ValueError. -/
def restrict_access (clientStr : String) (allowed_ip : Option String) :
    Except String Bool :=
  match allowed_ip with
  | none => Except.ok true
  | some s =>
    if s = "" then Except.ok true
    else
      match ip_address_parse clientStr.data with
      | none => Except.error "ValueError: not an IPv4 or IPv6 address"
      | some client => checkEntries client (pysplit s.data [','])

deriving instance DecidableEq for Except

-- ### Helper lemma: the entry loop on raise-free lists is a first-match scan

theorem checkEntries_eq_any (client : IPAddr) :
    ∀ entries : List (List Char),
      (∀ e ∈ entries, '/' ∉ pyStrip e →
        (ip_address_parse (pyStrip e)).isSome = true) →
      checkEntries client entries = Except.ok (entries.any (matchesEntry client)) := by
  intro entries
  induction entries with
  | nil => intro _; rfl
  | cons e rest ih =>
    intro h
    have hrest := fun x hx => h x (List.mem_cons_of_mem e hx)
    rw [List.any_cons]
    simp only [checkEntries, matchesEntry]
    by_cases hcs : '/' ∈ pyStrip e
    · rw [if_pos hcs, if_pos hcs]
      cases hnet : ip_network_parse (pyStrip e) with
      | none => exact ih hrest
      | some net =>
        show (if netContains net client = true then Except.ok true
            else checkEntries client rest)
          = Except.ok (netContains net client || rest.any (matchesEntry client))
        cases hc : netContains net client with
        | false => exact ih hrest
        | true => rfl
    · rw [if_neg hcs, if_neg hcs]
      cases hpa : ip_address_parse (pyStrip e) with
      | none =>
        have hx := h e (List.mem_cons_self e rest) hcs
        rw [hpa] at hx
        simp at hx
      | some a =>
        show (if client = a then Except.ok true else checkEntries client rest)
          = Except.ok (decide (client = a) || rest.any (matchesEntry client))
        by_cases heq : client = a
        · rw [if_pos heq]
          subst heq
          simp
        · rw [if_neg heq, decide_eq_false heq]
          exact ih hrest

-- ### Claim theorems for the address matcher

/-- C3, counterexample: the claim that the authorization check never
raises for a non-empty allow-list is false: with allow-list "abc" (an
entry without a slash that is not a valid address) the uncaught
ValueError of `ip_address` aborts the check, so no Boolean verdict is
produced. -/
theorem restrict_C3_counterexample :
    (restrict_access "10.1.2.3" (some "abc")).toOption = none := by decide

/-- C3, amended: provided every allow-list entry without a
prefix-length separator parses as an IP address (and the client address
itself parses, as a socket-provided address always does), the check
never raises: a family-mismatched entry simply fails to match and
evaluation continues, and an entry with invalid subnet syntax is
skipped without being fatal to the others; an entry without a slash
that is not a valid address, however, raises an uncaught ValueError. -/
theorem restrict_C3_amended (clientStr s : String)
    (hclient : (ip_address_parse clientStr.data).isSome = true)
    (hentries : ∀ e ∈ pysplit s.data [','], '/' ∉ pyStrip e →
      (ip_address_parse (pyStrip e)).isSome = true) :
    ∃ b, restrict_access clientStr (some s) = Except.ok b := by
  have hred : restrict_access clientStr (some s)
      = if s = "" then Except.ok true
        else
          match ip_address_parse clientStr.data with
          | none => Except.error "ValueError: not an IPv4 or IPv6 address"
          | some client => checkEntries client (pysplit s.data [',']) := rfl
  rw [hred]
  by_cases hs : s = ""
  · rw [if_pos hs]
    exact ⟨true, rfl⟩
  · rw [if_neg hs]
    cases hpa : ip_address_parse clientStr.data with
    | none =>
      rw [hpa] at hclient
      simp at hclient
    | some client =>
      exact ⟨_, checkEntries_eq_any client (pysplit s.data [',']) hentries⟩

/-- Witness for the amended C3: an IPv6 client against IPv4-only and
malformed-subnet entries neither raises nor matches any entry. -/
theorem restrict_C3_amended_witness :
    ∃ b, restrict_access "::1" (some "10.0.0.0/8, bad/99, 192.168.1.5")
      = Except.ok b :=
  restrict_C3_amended "::1" "10.0.0.0/8, bad/99, 192.168.1.5" (by decide) (by decide)

/-- C4, counterexample: the claim that the check returns false whenever
no entry matches is false: with allow-list "bar" nothing matches, yet
the check raises an uncaught ValueError instead of returning false. -/
theorem restrict_C4_counterexample :
    (restrict_access "192.168.1.6" (some "bar")).toOption = none := by decide

/-- C4, amended: with a missing or empty allow-list every client is
allowed; with a non-empty allow-list all of whose slash-free entries
are valid addresses, the check returns true exactly when some entry
matches (first match wins, exhaustion yields false); the three concrete
verdicts of the claim hold; on a non-matching traversal that reaches an
invalid slash-free entry, however, the check raises instead of
returning false. -/
theorem restrict_C4_amended :
    (∀ clientStr : String,
      restrict_access clientStr none = Except.ok true ∧
      restrict_access clientStr (some "") = Except.ok true) ∧
    (∀ clientStr s : String, ∀ client : IPAddr, s ≠ "" →
      ip_address_parse clientStr.data = some client →
      (∀ e ∈ pysplit s.data [','], '/' ∉ pyStrip e →
        (ip_address_parse (pyStrip e)).isSome = true) →
      restrict_access clientStr (some s)
        = Except.ok ((pysplit s.data [',']).any (matchesEntry client))) ∧
    restrict_access "10.1.2.3" (some "10.0.0.0/8,192.168.1.5") = Except.ok true ∧
    restrict_access "192.168.1.5" (some "10.0.0.0/8,192.168.1.5") = Except.ok true ∧
    restrict_access "192.168.1.6" (some "10.0.0.0/8,192.168.1.5") = Except.ok false := by
  refine ⟨fun clientStr => ⟨rfl, rfl⟩, ?_, by decide, by decide, by decide⟩
  intro clientStr s client hne hpa hent
  have hred : restrict_access clientStr (some s)
      = if s = "" then Except.ok true
        else
          match ip_address_parse clientStr.data with
          | none => Except.error "ValueError: not an IPv4 or IPv6 address"
          | some client => checkEntries client (pysplit s.data [',']) := rfl
  rw [hred, if_neg hne, hpa]
  exact checkEntries_eq_any client (pysplit s.data [',']) hent

/-- Witness for the amended C4 at the claim's own allow-list and first
client address. -/
theorem restrict_C4_amended_witness :
    restrict_access "10.1.2.3" (some "10.0.0.0/8,192.168.1.5")
      = Except.ok ((pysplit ("10.0.0.0/8,192.168.1.5" : String).data [',']).any
          (matchesEntry (IPAddr.v4 167838211))) :=
  restrict_C4_amended.2.1 "10.1.2.3" "10.0.0.0/8,192.168.1.5" (IPAddr.v4 167838211)
    (by decide) (by decide) (by decide)

-- ### Multipart extraction (do_POST)

/-- Models Python `in` on bytes/str: whether `sub` occurs contiguously
in the list. -/
def containsSub [DecidableEq α] (sub : List α) : List α → Bool
  | [] => sub.isPrefixOf ([] : List α)
  | x :: xs => sub.isPrefixOf (x :: xs) || containsSub sub xs

/-- Index of the first occurrence of `sub`, if any. -/
def findSubIdx [DecidableEq α] (sub : List α) : List α → Option Nat
  | [] => if sub.isPrefixOf ([] : List α) then some 0 else none
  | x :: xs =>
    if sub.isPrefixOf (x :: xs) then some 0
    else (findSubIdx sub xs).map (· + 1)

/-- Models Python `l.split(sub, 1)` followed by unpacking into exactly
two names: `some (before, after)` when `sub` occurs, `none` for the
ValueError raised by unpacking a one-element list. -/
def pysplitOnce [DecidableEq α] (l sub : List α) : Option (List α × List α) :=
  match findSubIdx sub l with
  | some i => some (l.take i, l.drop (i + sub.length))
  | none => none

/-- UTF-8 encoding of one character (`str.encode`). -/
def utf8EncodeChar (c : Char) : List Nat :=
  let u := c.toNat
  if u < 128 then [u]
  else if u < 2048 then [192 + u / 64, 128 + u % 64]
  else if u < 65536 then [224 + u / 4096, 128 + (u / 64) % 64, 128 + u % 64]
  else [240 + u / 262144, 128 + (u / 4096) % 64, 128 + (u / 64) % 64, 128 + u % 64]

/-- Models `str.encode()` (UTF-8). -/
def utf8Encode (s : String) : List Nat :=
  (s.data.map utf8EncodeChar).flatten

/-- A UTF-8 continuation byte. -/
def isCont (b : Nat) : Bool :=
  128 ≤ b ∧ b ≤ 191

/-- Strict UTF-8 decoding (`bytes.decode()`) with explicit fuel (the
input length suffices, each step consuming at least one byte): rejects
overlong forms, surrogates and values beyond U+10FFFF, exactly as
CPython's strict codec does. -/
def utf8DecodeFuel : Nat → List Nat → Option (List Char)
  | _, [] => some []
  | 0, _ :: _ => none
  | fuel + 1, b1 :: rest =>
    if b1 < 128 then
      match utf8DecodeFuel fuel rest with
      | some cs => some (Char.ofNat b1 :: cs)
      | none => none
    else if 194 ≤ b1 ∧ b1 ≤ 223 then
      match rest with
      | b2 :: rest2 =>
        if isCont b2 then
          match utf8DecodeFuel fuel rest2 with
          | some cs => some (Char.ofNat ((b1 - 192) * 64 + (b2 - 128)) :: cs)
          | none => none
        else none
      | [] => none
    else if 224 ≤ b1 ∧ b1 ≤ 239 then
      match rest with
      | b2 :: b3 :: rest3 =>
        if (if b1 = 224 then 160 ≤ b2 ∧ b2 ≤ 191
            else if b1 = 237 then 128 ≤ b2 ∧ b2 ≤ 159
            else isCont b2 = true) ∧ isCont b3 = true then
          match utf8DecodeFuel fuel rest3 with
          | some cs =>
            some (Char.ofNat ((b1 - 224) * 4096 + (b2 - 128) * 64 + (b3 - 128)) :: cs)
          | none => none
        else none
      | _ => none
    else if 240 ≤ b1 ∧ b1 ≤ 244 then
      match rest with
      | b2 :: b3 :: b4 :: rest4 =>
        if (if b1 = 240 then 144 ≤ b2 ∧ b2 ≤ 191
            else if b1 = 244 then 128 ≤ b2 ∧ b2 ≤ 143
            else isCont b2 = true) ∧ isCont b3 = true ∧ isCont b4 = true then
          match utf8DecodeFuel fuel rest4 with
          | some cs =>
            some (Char.ofNat
              ((b1 - 240) * 262144 + (b2 - 128) * 4096 + (b3 - 128) * 64 + (b4 - 128)) :: cs)
          | none => none
        else none
      | _ => none
    else none

/-- Models `bytes.decode()` (strict UTF-8). -/
def utf8Decode (l : List Nat) : Option (List Char) :=
  utf8DecodeFuel l.length l

/-- Greedy group end for `re.search(r'filename="(.+)"', s)` at a match
of the literal prefix: the largest index k of a closing quote such that
the group `tail[0..k)` is non-empty and contains no newline (`.` does
not match a newline). -/
def lastQuoteIdx (tail : List Char) : Option Nat :=
  match rfindIdx ((tail.take (match tail.findIdx? (· = '\n') with
      | some i => i
      | none => tail.length)).drop 1) '"' with
  | some k => some (k + 1)
  | none => none

/-- Models `re.search(r'filename="(.+)"', s).group(1)`: scan start
positions left to right; at each occurrence of the literal
`filename="`, take the greedy non-newline group closed by a quote;
positions where the greedy close fails fall through to later starts;
`none` models the AttributeError of `.group` on a failed search. -/
def searchFilename : List Char → Option (List Char)
  | [] => none
  | x :: xs =>
    if ("filename=\"".data).isPrefixOf (x :: xs) then
      match lastQuoteIdx ((x :: xs).drop 10) with
      | some k => some (((x :: xs).drop 10).take k)
      | none => searchFilename xs
    else searchFilename xs

/-- The failures of the body-parsing sequence (all are caught by the
handler's `except Exception` and become a 400 response). -/
inductive ParseErr
  | noFilePart
  | malformedPart
deriving DecidableEq

/-- The bytes `b'\r\n\r\n'` separating a part's header block from its
content. -/
def crlfcrlf : List Nat := [13, 10, 13, 10]

/-- Parsing of the selected file part in `do_POST`:
`headers, data = part.split(b'\r\n\r\n', 1)`, `headers.decode()`, and
the `filename="(.+)"` search; the content is everything after the first
CRLF CRLF to the end of the segment, with nothing trimmed. -/
def parsePart (part : List Nat) : Except ParseErr (String × List Nat) :=
  match pysplitOnce part crlfcrlf with
  | none => Except.error ParseErr.malformedPart
  | some (headers, data) =>
    match utf8Decode headers with
    | none => Except.error ParseErr.malformedPart
    | some hchars =>
      match searchFilename hchars with
      | none => Except.error ParseErr.malformedPart
      | some fname => Except.ok (String.mk fname, data)

/-- The `for part in parts` loop of `do_POST`: the first segment
containing `b'filename="'` is parsed (and the handler returns
immediately afterwards, so later segments are never examined); if no
segment contains the marker the loop falls through. -/
def processParts : List (List Nat) → Except ParseErr (String × List Nat)
  | [] => Except.error ParseErr.noFilePart
  | part :: rest =>
    if containsSub (utf8Encode "filename=\"") part then parsePart part
    else processParts rest

/-- Models the extraction performed by `FileUploadHandler.do_POST`:
split the body on the byte-exact delimiter `b'--' + boundary.encode()`
and process the segments. -/
def extractFile (body : List Nat) (boundary : String) :
    Except ParseErr (String × List Nat) :=
  processParts (pysplit body (utf8Encode ("--" ++ boundary)))

/-- Absence of adjacent underscores (Python `int()` rejects `1__0`). -/
def noDoubleUnderscore (l : List Char) : Bool :=
  (l.zip l.tail).all (fun p => ¬ (p.1 = '_' ∧ p.2 = '_'))

/-- Whether Python `int(s)` accepts the string: optional surrounding
whitespace, an optional sign, then digits with single underscores
strictly between digits.  Only acceptance matters to the handler model
(the value is not used, since the body bytes are supplied directly). -/
def pyIntOk (l : List Char) : Bool :=
  decide ((if (pyStrip l).take 1 = ['+'] ∨ (pyStrip l).take 1 = ['-']
      then (pyStrip l).drop 1 else pyStrip l) ≠ []) &&
  (if (pyStrip l).take 1 = ['+'] ∨ (pyStrip l).take 1 = ['-']
      then (pyStrip l).drop 1 else pyStrip l).all (fun c => c.isDigit ∨ c = '_') &&
  decide ((if (pyStrip l).take 1 = ['+'] ∨ (pyStrip l).take 1 = ['-']
      then (pyStrip l).drop 1 else pyStrip l).take 1 ≠ ['_']) &&
  decide ((if (pyStrip l).take 1 = ['+'] ∨ (pyStrip l).take 1 = ['-']
      then (pyStrip l).drop 1 else pyStrip l).getLast? ≠ some '_') &&
  noDoubleUnderscore (if (pyStrip l).take 1 = ['+'] ∨ (pyStrip l).take 1 = ['-']
      then (pyStrip l).drop 1 else pyStrip l)

/-- Models `FileUploadHandler.do_POST` for a request to path "/": the
status of the response the handler sends, with `none` when an uncaught
exception escapes the handler and no response is produced.  `authorized`
is the verdict of `restrict_access` (a false verdict means the 403 was
already sent there); `content_type` and `content_length` are the raw
header values (`None` when the header is absent); `body` is what
`rfile.read` returns; filesystem writes are modelled as succeeding. -/
def do_POST_status (authorized : Bool) (content_type : Option String)
    (content_length : Option String) (body : List Nat) : Option Nat :=
  if ¬ authorized then some 403
  else
    match content_type with
    | none => none
    | some ct =>
      if ("multipart/form-data".data).isPrefixOf ct.data then
        match content_length with
        | none => some 400
        | some cl =>
          if pyIntOk cl.data then
            match (pysplit ct.data ("; ".data))[1]? with
            | none => some 400
            | some seg =>
              match (pysplit seg ("=".data))[1]? with
              | none => some 400
              | some bnd =>
                match extractFile body (String.mk bnd) with
                | Except.ok _ => some 200
                | Except.error _ => some 400
          else some 400
      else some 400

-- ### Claim theorems for the multipart extractor and POST handler

/-- C2, evaluation at the claim's own well-formed body: the code splits
off the segment and takes everything after the first CRLF CRLF to the
segment's end, so the extracted content is the seven bytes of
"hello\r\n" — the terminal CRLF preceding the next boundary marker is
NOT trimmed, contradicting the claimed content "hello". -/
theorem extract_C2_eval :
    extractFile (utf8Encode "--XYZ\r\nContent-Disposition: form-data; name=\"file\"; filename=\"report.txt\"\r\n\r\nhello\r\n--XYZ--\r\n") "XYZ"
      = Except.ok ("report.txt", utf8Encode "hello\r\n")
    ∧ utf8Encode "hello\r\n" ≠ utf8Encode "hello" := by
  constructor <;> decide

/-- C6: the extraction splits the body on the byte-exact delimiter
`--boundary` and is determined by the FIRST segment containing the
marker `filename="`: the loop equals a first-match scan, so segments
after the first matching one are ignored and (the result being a single
optional file) at most one file is ever persisted per request. -/
theorem extract_C6_first_match (body : List Nat) (boundary : String) :
    extractFile body boundary
      = match (pysplit body (utf8Encode ("--" ++ boundary))).find?
            (fun part => containsSub (utf8Encode "filename=\"") part) with
        | none => Except.error ParseErr.noFilePart
        | some part => parsePart part := by
  unfold extractFile
  generalize pysplit body (utf8Encode ("--" ++ boundary)) = parts
  induction parts with
  | nil => rfl
  | cons p rest ih =>
    by_cases hm : containsSub (utf8Encode "filename=\"") p = true
    · rw [show processParts (p :: rest)
          = if containsSub (utf8Encode "filename=\"") p = true then parsePart p
            else processParts rest from rfl,
        if_pos hm, List.find?_cons_of_pos _ hm]
    · rw [show processParts (p :: rest)
          = if containsSub (utf8Encode "filename=\"") p = true then parsePart p
            else processParts rest from rfl,
        if_neg hm, List.find?_cons_of_neg _ hm]
      exact ih

/-- C7, counterexample: an authorized POST to "/" carrying NO
content-type header does not receive a 400: `self.headers['Content-Type']`
is None, `None.startswith` raises an AttributeError before the guarded
try block, and the handler produces no response at all. -/
theorem do_POST_C7_counterexample :
    do_POST_status true none (some "5") [] = none
      ∧ (none : Option Nat) ≠ some 400 :=
  ⟨rfl, by decide⟩

/-- C7, amended: for an authorized POST to "/" that carries a
content-type header, every verification or extraction failure yields a
400 response: a non-multipart content-type gets 400, and with a
multipart content-type the response is always 400 or 200 (every
exception inside the body-parsing/saving sequence is caught and
converted to 400); a request with no content-type header at all,
however, raises before the guarded sequence and gets no response. -/
theorem do_POST_C7_amended (ct : String) (cl : Option String) (body : List Nat) :
    (("multipart/form-data".data).isPrefixOf ct.data = false →
      do_POST_status true (some ct) cl body = some 400) ∧
    (do_POST_status true (some ct) cl body = some 400 ∨
      do_POST_status true (some ct) cl body = some 200) := by
  have hred : do_POST_status true (some ct) cl body
      = if ("multipart/form-data".data).isPrefixOf ct.data then
          match cl with
          | none => some 400
          | some c =>
            if pyIntOk c.data then
              match (pysplit ct.data ("; ".data))[1]? with
              | none => some 400
              | some seg =>
                match (pysplit seg ("=".data))[1]? with
                | none => some 400
                | some bnd =>
                  match extractFile body (String.mk bnd) with
                  | Except.ok _ => some 200
                  | Except.error _ => some 400
            else some 400
        else some 400 := rfl
  constructor
  · intro h
    rw [hred, h]
    rfl
  · rw [hred]
    repeat' split
    all_goals first | (left; rfl) | (right; rfl)

/-- Witness for the amended C7: an authorized POST whose content-type
is "text/plain" receives status 400. -/
theorem do_POST_C7_amended_witness :
    do_POST_status true (some "text/plain") none [] = some 400 :=
  (do_POST_C7_amended "text/plain" none []).1 (by decide)
